import Mathlib

/-!
# Verification of the incremental type-inference metadata engine

Shallow embedding of `src/packages/gatsby/src/schema/infer/inference-metadata.js`.

JavaScript values are modelled by the mutual inductive `JValue` (JS numbers are
modelled as exact rationals; `undefined` is the constructor `vundef`).  JS objects
are modelled as insertion-ordered association lists; `alSet` mirrors JS property
assignment (update in place, append when new) and `alGet` mirrors property lookup.
All functions are translated from the source; the two helpers the source imports
from sibling files (`is-32-bit-integer.js` and `looksLikeADate`) are modelled from
the spec and marked as such.
-/

namespace InferenceMetadata

/-- The nine semantic type tags of the engine (`getType`'s codomain). -/
inductive TypeTag where
  | int | float | date | string | boolean | array | listOfUnion | object | null
deriving DecidableEq, Repr

mutual
/-- JavaScript values (JSON-like, plus `undefined`).  Numbers are exact rationals. -/
inductive JValue where
  | vundef
  | vnull
  | vnum (q : ℚ)
  | vbool (b : Bool)
  | vstr (s : String)
  | varr (items : JItems)
  | vobj (fields : JFields)
deriving DecidableEq, Repr

/-- The elements of a JS array value. -/
inductive JItems where
  | nil
  | cons (head : JValue) (tail : JItems)
deriving DecidableEq, Repr

/-- The own properties of a JS object value, in insertion order. -/
inductive JFields where
  | nil
  | cons (key : String) (val : JValue) (tail : JFields)
deriving DecidableEq, Repr
end

/-- Association-list lookup (JS property read; `none` models `undefined`). -/
def alGet {α β : Type} [DecidableEq α] : List (α × β) → α → Option β
  | [], _ => none
  | (k, v) :: r, a => if k = a then some v else alGet r a

/-- Association-list assignment (JS `obj[k] = v`): replaces in place, appends when new. -/
def alSet {α β : Type} [DecidableEq α] : List (α × β) → α → β → List (α × β)
  | [], a, b => [(a, b)]
  | (k, v) :: r, a, b => if k = a then (a, b) :: r else (k, v) :: alSet r a b

/-- Per-type statistics, polymorphic in the nested-descriptor type so the knot can
be tied by the nested inductive `Descriptor`.  Mirrors the `ValueDescriptor` entry
shape documented in the source header: `total`, `first`, `example`, `empty`,
`props`, `item`, `nodes`.  Absent JS properties are `vundef` / `none` / `[]`. -/
structure TypeInfoF (D : Type) where
  total : Int := 0
  first : JValue := .vundef
  «example» : JValue := .vundef
  empty : Option Int := none
  props : List (String × D) := []
  item : Option D := none
  nodes : List (String × Int) := []
deriving Repr

/-- A value descriptor: map from type tag to per-type statistics (insertion order). -/
inductive Descriptor where
  | mk (entries : List (TypeTag × TypeInfoF Descriptor))

/-- The statistics record stored under one type tag of a `Descriptor`. -/
abbrev TypeInfo := TypeInfoF Descriptor

/-- The underlying association list of a descriptor. -/
def Descriptor.entries : Descriptor → List (TypeTag × TypeInfo)
  | .mk es => es

/-- JS truthiness of a value (`undefined`, `null`, `0`, `""`, `false` are falsy). -/
def jsTruthy : JValue → Bool
  | .vundef => false
  | .vnull => false
  | .vnum q => q != 0
  | .vbool b => b
  | .vstr s => s != ""
  | .varr _ => true
  | .vobj _ => true

/-- JS strict equality `===` on the values the engine compares (node ids).
Primitives compare by value; arrays and objects compare by reference, which the
model approximates as `false` (the engine only ever compares id primitives). -/
def jsStrictEq : JValue → JValue → Bool
  | .vundef, .vundef => true
  | .vnull, .vnull => true
  | .vnum a, .vnum b => a == b
  | .vbool a, .vbool b => a == b
  | .vstr a, .vstr b => a == b
  | _, _ => false

/-- JS conversion of a value to an object key string (used for `nodes[nodeId]`).
Number/array formatting is approximated; the engine's ids are strings in practice. -/
def jsKeyString : JValue → String
  | .vstr s => s
  | .vbool b => if b then "true" else "false"
  | .vnull => "null"
  | .vundef => "undefined"
  | .vnum q => toString q
  | .varr _ => ""
  | .vobj _ => "[object Object]"

/-- JS `String.prototype.includes`: substring containment. -/
def jsIncludes (s sub : String) : Bool := decide (sub.toList <:+: s.toList)

/-- Modelled from the spec: the source imports `is32BitInteger` from the sibling file
`is-32-bit-integer.js`, which is not under `src/`.  The spec says a number classifies
as `int` when "the value is exactly representable as a 32-bit signed integer". -/
def is32BitInteger (q : ℚ) : Bool :=
  q.den == 1 && decide (-(2 ^ 31 : Int) ≤ q.num) && decide (q.num ≤ 2 ^ 31 - 1)

/-- Modelled from the spec: the source imports `looksLikeADate` from `../types/date`,
which is not under `src/`.  The spec says strings classify as `date` when they "match
a recognized date-like lexical pattern"; we model the pattern as an ISO `YYYY-MM-DD`
shape (ten characters: four digits, dash, two digits, dash, two digits). -/
def looksLikeADate (s : String) : Bool :=
  match s.toList with
  | [a, b, c, d, e, f, g, h, i, j] =>
      a.isDigit && b.isDigit && c.isDigit && d.isDigit && e == '-' &&
      f.isDigit && g.isDigit && h == '-' && i.isDigit && j.isDigit
  | _ => false

/-- The Type Classifier `getType` (source lines 89-113): maps a raw value plus its
field key to one semantic type tag.  `Date` instances and boxed `String` objects are
outside the modelled value universe; every other source case is covered, and the
`default` branch (e.g. `undefined`) yields `null`. -/
def getType (value : JValue) (key : String) : TypeTag :=
  match value with
  | .vnum q => if is32BitInteger q then .int else .float
  | .vstr s => if looksLikeADate s then .date else .string
  | .vbool _ => .boolean
  | .vnull => .null
  | .varr .nil => .null
  | .varr (.cons _ _) => if jsIncludes key "___NODE" then .listOfUnion else .array
  | .vobj .nil => .null
  | .vobj (.cons _ _ _) => .object
  | .vundef => .null

/-- The two operations of the Descriptor Updater. -/
inductive Op where
  | add
  | del
deriving DecidableEq, Repr

/-- The per-operation delta (`operation === 'del' ? -1 : 1`, source line 128). -/
def opSign : Op → Int
  | .add => 1
  | .del => -1

/-- The `listOfUnion` loop of `updateValueDescriptor` (source lines 178-189):
`nodes[nodeId] = (nodes[nodeId] || 0) + delta`, flagging a structural change
whenever an id's count lands on 0 or 1. -/
def updNodes : JItems → List (String × Int) → Int → Bool → List (String × Int) × Bool
  | .nil, nodes, _, dirty => (nodes, dirty)
  | .cons x rest, nodes, delta, dirty =>
      let k := jsKeyString x
      let c := (alGet nodes k).getD 0 + delta
      updNodes rest (alSet nodes k c) delta (dirty || c == 0 || c == 1)

mutual
/-- The Descriptor Updater `updateValueDescriptor` (source lines 115-208), returning
the updated descriptor together with the structural-change flag. -/
def updateValueDescriptor (nodeId : JValue) (key : String) (value : JValue) (op : Op)
    (descriptor : Descriptor) : Descriptor × Bool :=
  let typeName := getType value key
  if typeName = .null then (descriptor, false)
  else
    let delta := opSign op
    let ti0 : TypeInfo := (alGet descriptor.entries typeName).getD {}
    let ti1 : TypeInfo := { ti0 with total := ti0.total + delta }
    let dirty0 : Bool := ti1.total == 1 || ti1.total == 0
    let ti2 : TypeInfo :=
      match op with
      | .add => { ti1 with first := if jsTruthy ti1.first then ti1.first else nodeId }
      | .del => { ti1 with first :=
          (if jsStrictEq ti1.first nodeId || ti1.total == 0 then .vundef else ti1.first) }
    match value with
    | .vobj fs =>
        let pr := updProps nodeId op fs ti2.props dirty0
        (.mk (alSet descriptor.entries .object { ti2 with props := pr.1 }), pr.2)
    | .varr xs =>
        if typeName = .listOfUnion then
          let ns := updNodes xs ti2.nodes delta dirty0
          (.mk (alSet descriptor.entries .listOfUnion { ti2 with nodes := ns.1 }), ns.2)
        else
          let it := updItems nodeId key op xs ti2.item dirty0
          (.mk (alSet descriptor.entries .array { ti2 with item := it.1 }), it.2)
    | .vstr s =>
        if typeName = .string then
          let ti3 := if s = "" then { ti2 with empty := some (ti2.empty.getD 0 + delta) }
                     else ti2
          let ti4 := { ti3 with «example» :=
            (if ti3.«example» != .vundef then ti3.«example» else .vstr s) }
          (.mk (alSet descriptor.entries .string ti4), dirty0)
        else
          let ti4 := { ti2 with «example» :=
            (if ti2.«example» != .vundef then ti2.«example» else .vstr s) }
          (.mk (alSet descriptor.entries typeName ti4), dirty0)
    | _ =>
        let ti4 := { ti2 with «example» :=
          (if ti2.«example» != .vundef then ti2.«example» else value) }
        (.mk (alSet descriptor.entries typeName ti4), dirty0)

/-- The `object` loop of `updateValueDescriptor` (source lines 148-163): recurse per
own property into `props[propertyName]`, OR-ing child structural-change flags. -/
def updProps (nodeId : JValue) (op : Op) (fs : JFields)
    (props : List (String × Descriptor)) (dirty : Bool) :
    List (String × Descriptor) × Bool :=
  match fs with
  | .nil => (props, dirty)
  | .cons k v rest =>
      let pd := updateValueDescriptor nodeId k v op ((alGet props k).getD (.mk []))
      updProps nodeId op rest (alSet props k pd.1) (dirty || pd.2)

/-- The `array` loop of `updateValueDescriptor` (source lines 164-177): recurse once
per element into the shared `item` descriptor, OR-ing structural-change flags. -/
def updItems (nodeId : JValue) (key : String) (op : Op) (xs : JItems)
    (item : Option Descriptor) (dirty : Bool) : Option Descriptor × Bool :=
  match xs with
  | .nil => (item, dirty)
  | .cons x rest =>
      let idesc := updateValueDescriptor nodeId key x op (item.getD (.mk []))
      updItems nodeId key op rest (some idesc.1) (dirty || idesc.2)
end

/-- Per node-type container (`TypeMetadata`, source header comment): sticky ignore
flag, ignored field names, field-name-to-descriptor map, structural-change flag. -/
structure TypeMetadata where
  ignored : Bool := false
  ignoredFields : List String := []
  fieldMap : List (String × Descriptor) := []
  dirty : Bool := false

/-- JS property read on a record (first binding wins; `vundef` when absent). -/
def jsGetF : JFields → String → JValue
  | .nil, _ => .vundef
  | .cons k v r, key => if k = key then v else jsGetF r key

/-- `Object.keys` of a record, in insertion order. -/
def fieldKeys : JFields → List String
  | .nil => []
  | .cons k _ r => k :: fieldKeys r

/-- `nodeFields` (source lines 210-211): the record's keys minus the ignored ones. -/
def nodeFields (node : JFields) (ignoredFields : List String) : List String :=
  (fieldKeys node).filter (fun key => !ignoredFields.contains key)

/-- The `forEach` loop of `updateTypeMetadata` (source lines 219-230): update each
field's descriptor in `fieldMap`, OR-ing the structural-change flags. -/
def updMeta (nodeId : JValue) (op : Op) (node : JFields) (fields : List String)
    (fieldMap : List (String × Descriptor)) (changed : Bool) :
    List (String × Descriptor) × Bool :=
  match fields with
  | [] => (fieldMap, changed)
  | field :: rest =>
      let dr :=
        updateValueDescriptor nodeId field (jsGetF node field) op
          ((alGet fieldMap field).getD (.mk []))
      updMeta nodeId op node rest (alSet fieldMap field dr.1) (changed || dr.2)

/-- `updateTypeMetadata` (source lines 213-234): a no-op when `metadata.ignored`,
otherwise updates every non-ignored field of the record and ORs the accumulated
structural-change flag into `dirty`. -/
def updateTypeMetadata (metadata : TypeMetadata) (op : Op) (node : JFields) :
    TypeMetadata :=
  if metadata.ignored then metadata
  else
    let fm :=
      updMeta (jsGetF node "id") op node (nodeFields node metadata.ignoredFields)
        metadata.fieldMap false
    { metadata with fieldMap := fm.1, dirty := metadata.dirty || fm.2 }

/-- `ignore` (source lines 236-239): sets the sticky `ignored` flag. -/
def ignore (metadata : TypeMetadata) (set : Bool := true) : TypeMetadata :=
  { metadata with ignored := set }

/-- `addNode` (source line 241). -/
def addNode (metadata : TypeMetadata) (node : JFields) : TypeMetadata :=
  updateTypeMetadata metadata .add node

/-- `deleteNode` (source line 242). -/
def deleteNode (metadata : TypeMetadata) (node : JFields) : TypeMetadata :=
  updateTypeMetadata metadata .del node

/-- `addNodes` (source line 243): left fold of `addNode`. -/
def addNodes (metadata : TypeMetadata) (nodes : List JFields) : TypeMetadata :=
  nodes.foldl addNode metadata

/-- `isMixedNumber` (source lines 245-246). -/
def isMixedNumber (descriptor : Descriptor) : Bool :=
  match alGet descriptor.entries .float, alGet descriptor.entries .int with
  | some f, some i => f.total > 0 && i.total > 0
  | _, _ => false

/-- `isMixOfDateAndString` (source lines 248-249). -/
def isMixOfDateAndString (descriptor : Descriptor) : Bool :=
  match alGet descriptor.entries .date, alGet descriptor.entries .string with
  | some d, some s => d.total > 0 && s.total > 0
  | _, _ => false

/-- `hasOnlyEmptyStrings` (source lines 251-252): `string.empty === string.total`
(false when `empty` was never set, as in JS where `undefined === n` is false). -/
def hasOnlyEmptyStrings (descriptor : Descriptor) : Bool :=
  match alGet descriptor.entries .string with
  | some s => s.empty == some s.total
  | none => false

/-- `possibleTypes` (source lines 254-255): the keys of the descriptor whose
type-info has `total > 0`, in insertion order. -/
def possibleTypes (descriptor : Descriptor) : List TypeTag :=
  (descriptor.entries.map Prod.fst).filter fun t =>
    match alGet descriptor.entries t with
    | some ti => ti.total > 0
    | none => false

/-- The Type Resolver `resolveWinnerType` (source lines 257-272), returning the
winning tag and the conflict flag (the source's absent second tuple slot is
`false`). -/
def resolveWinnerType (descriptor : Descriptor) : TypeTag × Bool :=
  let candidates := possibleTypes descriptor
  if candidates.length == 1 then (candidates.headD .null, false)
  else if candidates.length == 2 && isMixedNumber descriptor then (.float, false)
  else if candidates.length == 2 && isMixOfDateAndString descriptor then
    ((if hasOnlyEmptyStrings descriptor then .date else .string), false)
  else if candidates.length > 1 then (.null, true)
  else (.null, false)

/-- `isEmpty` (source lines 405-408): every field's descriptor has no type tag with
a positive total. -/
def isEmpty (metadata : TypeMetadata) : Bool :=
  (metadata.fieldMap.map Prod.fst).all fun field =>
    (possibleTypes ((alGet metadata.fieldMap field).getD (.mk []))).length == 0

/-- One reported conflict alternative (`{type, value}`). -/
structure ConflictExample where
  type : String
  value : JValue
deriving DecidableEq, Repr

/-- One forwarded conflict report: the path and the alternatives, in order.  The JS
reporter is a side-effecting collaborator (`typeConflictReporter.addConflict`); the
model returns the emitted reports alongside each result. -/
abbrev Report := String × List ConflictExample

/-- The string name of a type tag (JS descriptor keys are these strings). -/
def tagToString : TypeTag → String
  | .int => "int"
  | .float => "float"
  | .date => "date"
  | .string => "string"
  | .boolean => "boolean"
  | .array => "array"
  | .listOfUnion => "listOfUnion"
  | .object => "object"
  | .null => "null"

/-- `typeNameMapper` (source lines 275-280): `listOfUnion` renders as `[string]`,
`int`/`float` render as `number`, anything else as its own name. -/
def typeNameMapper (t : TypeTag) : String :=
  if t = .listOfUnion then "[string]"
  else if t = .float || t = .int then "number"
  else tagToString t

/-- Conversion of a Lean list into a JS array value. -/
def jitemsOf : List JValue → JItems
  | [] => .nil
  | v :: r => .cons v (jitemsOf r)

/-- Conversion of a Lean association list into a JS object value. -/
def jfieldsOf : List (String × JValue) → JFields
  | [] => .nil
  | (k, v) :: r => .cons k v (jfieldsOf r)

/-- lodash `groupBy(conflictingTypes, type => descriptor[type].first || '')` (source
lines 303-306): groups in order of first occurrence of each key, preserving order
within each group. -/
def groupTypes (l : List TypeTag) (descriptor : Descriptor) : List (String × List TypeTag) :=
  l.foldl (fun acc t =>
    let f := ((alGet descriptor.entries t).getD {}).first
    let k := if jsTruthy f then jsKeyString f else ""
    match alGet acc k with
    | some g => alSet acc k (g ++ [t])
    | none => acc ++ [(k, [t])]) []

mutual
/-- The Example Builder `buildExampleValue` (source lines 323-390).  `fuel` bounds
the recursion depth of the mutually recursive builder cluster (one unit is consumed
at each call); the source recursion terminates because descriptors are finite trees,
and every claim is stated for sufficient fuel.  `hasReporter` models whether a
`typeConflictReporter` was supplied; the emitted reports are returned. -/
def buildExampleValue (fuel : Nat) (descriptor : Descriptor) (hasReporter : Bool)
    (isArrayItem : Bool) (path : String) : JValue × List Report :=
  match fuel with
  | 0 => (.vnull, [])
  | n + 1 =>
    let rw := resolveWinnerType descriptor
    let type := rw.1
    let conflicts := rw.2
    let reports : List Report :=
      if conflicts && hasReporter then
        [(path, prepareConflictExamples n descriptor isArrayItem)]
      else []
    let typeInfo : TypeInfo := (alGet descriptor.entries type).getD {}
    match type with
    | .null => (.vnull, reports)
    | .date | .string =>
        if isMixOfDateAndString descriptor then
          ((if hasOnlyEmptyStrings descriptor then JValue.vstr "1978-09-26"
            else JValue.vstr "String"), reports)
        else (typeInfo.«example», reports)
    | .array =>
        match typeInfo.item with
        | some item =>
            let bi := buildExampleValue n item hasReporter true path
            ((if bi.1 == .vnull then .vnull
              else .varr (.cons bi.1 .nil)), reports ++ bi.2)
        | none => (.vnull, reports)
    | .listOfUnion =>
        let nodes := typeInfo.nodes
        (.varr (jitemsOf
          (((nodes.map Prod.fst).filter fun k => (alGet nodes k).getD 0 > 0).map
            JValue.vstr)), reports)
    | .object =>
        let bp := buildProps n typeInfo.props hasReporter path
        (.vobj bp.1, reports ++ bp.2)
    | _ => (typeInfo.«example», reports)

/-- The `object` reduce of `buildExampleValue` (source lines 372-385): build each
property's example, omitting properties whose example is `null`. -/
def buildProps (fuel : Nat) (props : List (String × Descriptor)) (hasReporter : Bool)
    (path : String) : JFields × List Report :=
  match fuel with
  | 0 => (.nil, [])
  | n + 1 =>
    match props with
    | [] => (.nil, [])
    | (prop, pd) :: rest =>
        let bv := buildExampleValue n pd hasReporter false (path ++ "." ++ prop)
        let br := buildProps n rest hasReporter path
        ((if bv.1 != .vnull then .cons prop bv.1 br.1 else br.1), bv.2 ++ br.2)

/-- `reportedValueMapper` (source lines 281-297): the representative value shown for
one conflicting type. -/
def reportedValueMapper (fuel : Nat) (descriptor : Descriptor) (t : TypeTag) : JValue :=
  match fuel with
  | 0 => .vundef
  | n + 1 =>
    match t with
    | .listOfUnion =>
        let nodes := ((alGet descriptor.entries .listOfUnion).getD {}).nodes
        .varr (jitemsOf
          (((nodes.map Prod.fst).filter fun k => (alGet nodes k).getD 0 > 0).map
            JValue.vstr))
    | .object =>
        .vobj (jfieldsOf
          (getExampleObject n ((alGet descriptor.entries .object).getD {}).props
            (tagToString t) false).1)
    | .array =>
        match ((alGet descriptor.entries .array).getD {}).item with
        | some item =>
            let itemValue := (buildExampleValue n item false true "").1
            if itemValue == .vnull || itemValue == .vundef then .varr .nil
            else .varr (.cons itemValue .nil)
        | none => .varr .nil
    | _ => ((alGet descriptor.entries t).getD {}).«example»

/-- The Conflict Example Preparer `prepareConflictExamples` (source lines 274-321).
When `isArrayItem` is set, candidates are grouped by their `first` attribution. -/
def prepareConflictExamples (fuel : Nat) (descriptor : Descriptor) (isArrayItem : Bool) :
    List ConflictExample :=
  match fuel with
  | 0 => []
  | n + 1 =>
    let conflictingTypes := possibleTypes descriptor
    if isArrayItem then
      (groupTypes conflictingTypes descriptor).map fun g =>
        { type := "[" ++ String.intercalate "," (g.2.map typeNameMapper) ++ "]",
          value := .varr (jitemsOf (g.2.map (reportedValueMapper n descriptor))) }
    else
      conflictingTypes.map fun t =>
        { type := typeNameMapper t, value := reportedValueMapper n descriptor t }

/-- The `reduce` of `getExampleObject` (source lines 393-403): one example value per
field, keeping a binding only when the key is truthy and the value is not `null`. -/
def geFields (fuel : Nat) (fieldMap : List (String × Descriptor)) (keys : List String)
    (typeName : String) (hasReporter : Bool) (acc : List (String × JValue)) :
    List (String × JValue) × List Report :=
  match fuel with
  | 0 => (acc, [])
  | n + 1 =>
    match keys with
    | [] => (acc, [])
    | key :: rest =>
        let bv :=
          buildExampleValue n ((alGet fieldMap key).getD (.mk [])) hasReporter false
            (typeName ++ "." ++ key)
        let acc' := if key != "" && bv.1 != .vnull then alSet acc key bv.1 else acc
        let res := geFields n fieldMap rest typeName hasReporter acc'
        (res.1, bv.2 ++ res.2)

/-- `getExampleObject` (source lines 392-403): builds one example value per field of
`fieldMap`, path-prefixed with the node type name, omitting `null` examples. -/
def getExampleObject (fuel : Nat) (fieldMap : List (String × Descriptor))
    (typeName : String) (hasReporter : Bool) :
    List (String × JValue) × List Report :=
  match fuel with
  | 0 => ([], [])
  | n + 1 => geFields n fieldMap (fieldMap.map Prod.fst) typeName hasReporter []
end

/-! ## Basic lemmas about the association-list operations -/

theorem alGet_alSet_self {α β : Type} [DecidableEq α] (l : List (α × β)) (k : α) (v : β) :
    alGet (alSet l k v) k = some v := by
  induction l with
  | nil => simp [alGet, alSet]
  | cons p r ih =>
    obtain ⟨k', v'⟩ := p
    by_cases h : k' = k
    · simp [alGet, alSet, h]
    · simp [alGet, alSet, h, ih]

theorem alGet_alSet_ne {α β : Type} [DecidableEq α] (l : List (α × β)) (k k' : α) (v : β)
    (h : k' ≠ k) : alGet (alSet l k v) k' = alGet l k' := by
  induction l with
  | nil => simp [alGet, alSet, Ne.symm h]
  | cons p r ih =>
    obtain ⟨a, b⟩ := p
    by_cases ha : a = k
    · subst ha
      simp [alGet, alSet, Ne.symm h]
    · simp [alGet, alSet, ha, ih]

theorem alGet_mem_keys {α β : Type} [DecidableEq α] (l : List (α × β)) (k : α) (v : β)
    (h : alGet l k = some v) : k ∈ l.map Prod.fst := by
  induction l with
  | nil => simp [alGet] at h
  | cons p r ih =>
    obtain ⟨a, b⟩ := p
    by_cases ha : a = k
    · simp [ha]
    · simp only [alGet, ha, if_false] at h
      simp [ih h]

/-! ## C1: the structural-change flag on scalar updates -/

/-- Concrete input refuting claim C1 as written: an `int` entry with `total = 2`. -/
def c1Descriptor : Descriptor :=
  .mk [(.int, { total := 2, first := .vstr "1", «example» := .vnum 1 })]

/-- C1: a delete that lowers `int.total` from 2 to 1 nevertheless reports
`structuralChange = true`, because the source computes the flag from the
post-update total being 0 or 1 (`typeInfo.total === 1 || typeInfo.total === 0`,
line 134) — contradicting the claim and the source's own comment (lines 132-133)
that the flag marks a type newly appearing or fully disappearing.  The theorem
evaluates the Descriptor Updater at the failing input: the total lands on 1 (the
type does not disappear), yet the flag is `true`. -/
theorem c1_dirty_on_delete_two_to_one :
    (updateValueDescriptor (.vstr "x") "foo" (.vnum 1) .del c1Descriptor).2 = true ∧
    (alGet (updateValueDescriptor (.vstr "x") "foo" (.vnum 1) .del
      c1Descriptor).1.entries .int).map TypeInfoF.total = some 1 :=
  ⟨rfl, rfl⟩

/-! ## C6: sticky ignore -/

/-- C6: once `ignore(m, true)` is applied, `addNode` and `deleteNode` return the
metadata entirely unchanged (in particular `fieldMap` and `dirty`), since
`updateTypeMetadata` short-circuits on the `ignored` flag (source lines 214-216). -/
theorem c6_sticky_ignore (m : TypeMetadata) (n : JFields) :
    addNode (ignore m true) n = ignore m true ∧
    deleteNode (ignore m true) n = ignore m true := by
  constructor <;> simp [addNode, deleteNode, updateTypeMetadata, ignore]

/-! ## C9: the empty-string field name is always omitted -/

theorem c9_geFields_no_empty_key (fuel : Nat) (fieldMap : List (String × Descriptor))
    (keys : List String) (typeName : String) (hasReporter : Bool)
    (acc : List (String × JValue)) (hacc : alGet acc "" = none) :
    alGet (geFields fuel fieldMap keys typeName hasReporter acc).1 "" = none := by
  induction fuel generalizing keys acc with
  | zero => simpa [geFields] using hacc
  | succ n ih =>
    cases keys with
    | nil => simpa [geFields] using hacc
    | cons key rest =>
      simp only [geFields]
      apply ih
      by_cases hk : key = ""
      · simp [hk, hacc]
      · split
        · rw [alGet_alSet_ne _ _ _ _ (fun hh => hk hh.symm)]
          exact hacc
        · exact hacc

/-- C9: `getExampleObject` never emits a binding for the empty-string field name,
whatever its built example value is, because the emission guard
`if (key && value !== null)` (source line 399) requires a truthy key. -/
theorem c9_empty_key_omitted (fuel : Nat) (fieldMap : List (String × Descriptor))
    (typeName : String) (hasReporter : Bool) :
    alGet (getExampleObject fuel fieldMap typeName hasReporter).1 "" = none := by
  cases fuel with
  | zero => simp [getExampleObject, alGet]
  | succ n =>
    simp only [getExampleObject]
    exact c9_geFields_no_empty_key n fieldMap _ typeName hasReporter [] rfl

/-! ## C5: the int/string conflict scenario -/

/-- The record `{id: "1", foo: 25}`. -/
def c5Node1 : JFields := .cons "id" (.vstr "1") (.cons "foo" (.vnum 25) .nil)

/-- The record `{id: "2", foo: "x"}`. -/
def c5Node2 : JFields := .cons "id" (.vstr "2") (.cons "foo" (.vstr "x") .nil)

/-- The metadata after adding both records (with `id` ignored). -/
def c5Meta : TypeMetadata :=
  addNode (addNode { ignoredFields := ["id"] } c5Node1) c5Node2

/-- C5: on `{id:"1", foo:25}` then `{id:"2", foo:"x"}`, `getExampleObject` (with a
reporter supplied) emits exactly one conflict report, at path `typeName ++ "." ++
"foo"`, with alternatives `[{type:"number", value:25}, {type:"string", value:"x"}]`
in that order, and the resulting example object has no `foo` key. -/
theorem c5_conflict_reported_once (typeName : String) :
    (getExampleObject 5 c5Meta.fieldMap typeName true).2 =
      [(typeName ++ "." ++ "foo",
        [{ type := "number", value := .vnum 25 },
         { type := "string", value := .vstr "x" }])] ∧
    alGet (getExampleObject 5 c5Meta.fieldMap typeName true).1 "foo" = none :=
  ⟨rfl, rfl⟩

/-! ## C4: the mixed int/float scenario -/

/-- The record `{id: "1", foo: 1}`. -/
def c4Node1 : JFields := .cons "id" (.vstr "1") (.cons "foo" (.vnum 1) .nil)

/-- The record `{id: "2", foo: 1.5}`. -/
def c4Node2 : JFields := .cons "id" (.vstr "2") (.cons "foo" (.vnum (mkRat 3 2)) .nil)

/-- The metadata after adding both records (with `id` ignored). -/
def c4Meta : TypeMetadata :=
  addNode (addNode { ignoredFields := ["id"] } c4Node1) c4Node2

/-- C4 counterexample: the claim says the example value produced for `foo` is the
first numeric example recorded, namely 1 — but the Example Builder's default branch
(source line 388) returns the example stored under the *winning* tag, here `float`,
which is 1.5, the first float observed. -/
theorem c4_counterexample :
    alGet (getExampleObject 5 c4Meta.fieldMap "T" true).1 "foo" ≠ some (.vnum 1) := by
  decide

/-- C4 as amended: after adding `{id:"1", foo:1}` and `{id:"2", foo:1.5}`, the
resolved winning type for `foo` is `float` with no conflict, no conflict is
reported, and the example value for `foo` is the first float example recorded,
namely 1.5. -/
theorem c4_float_widening_example :
    resolveWinnerType ((alGet c4Meta.fieldMap "foo").getD (.mk [])) = (.float, false) ∧
    (getExampleObject 5 c4Meta.fieldMap "T" true).2 = [] ∧
    alGet (getExampleObject 5 c4Meta.fieldMap "T" true).1 "foo" =
      some (.vnum (mkRat 3 2)) :=
  ⟨rfl, rfl, rfl⟩

/-! ## C3: the winner-type resolution policy -/

theorem mem_possibleTypes (d : Descriptor) (t : TypeTag) :
    t ∈ possibleTypes d ↔ ∃ ti, alGet d.entries t = some ti ∧ 0 < ti.total := by
  unfold possibleTypes
  rw [List.mem_filter]
  constructor
  · rintro ⟨-, hp⟩
    cases hag : alGet d.entries t with
    | none => rw [hag] at hp; simp at hp
    | some ti =>
      rw [hag] at hp
      exact ⟨ti, rfl, by simpa using hp⟩
  · rintro ⟨ti, hag, hpos⟩
    refine ⟨alGet_mem_keys _ _ _ hag, ?_⟩
    rw [hag]
    simpa using hpos

theorem isMixedNumber_of_mem (d : Descriptor)
    (hi : TypeTag.int ∈ possibleTypes d) (hf : TypeTag.float ∈ possibleTypes d) :
    isMixedNumber d = true := by
  obtain ⟨ti, hgi, hpi⟩ := (mem_possibleTypes d .int).mp hi
  obtain ⟨tf, hgf, hpf⟩ := (mem_possibleTypes d .float).mp hf
  unfold isMixedNumber
  rw [hgf, hgi]
  simp [hpi, hpf]

theorem mem_of_isMixedNumber (d : Descriptor) (h : isMixedNumber d = true) :
    TypeTag.int ∈ possibleTypes d ∧ TypeTag.float ∈ possibleTypes d := by
  unfold isMixedNumber at h
  cases hgf : alGet d.entries .float <;> rw [hgf] at h <;>
    cases hgi : alGet d.entries .int <;> rw [hgi] at h <;> simp at h
  obtain ⟨hpf, hpi⟩ := h
  exact ⟨(mem_possibleTypes d .int).mpr ⟨_, hgi, hpi⟩,
    (mem_possibleTypes d .float).mpr ⟨_, hgf, hpf⟩⟩

theorem isMixOfDateAndString_of_mem (d : Descriptor)
    (hd : TypeTag.date ∈ possibleTypes d) (hs : TypeTag.string ∈ possibleTypes d) :
    isMixOfDateAndString d = true := by
  obtain ⟨td, hgd, hpd⟩ := (mem_possibleTypes d .date).mp hd
  obtain ⟨ts, hgs, hps⟩ := (mem_possibleTypes d .string).mp hs
  unfold isMixOfDateAndString
  rw [hgd, hgs]
  simp [hpd, hps]

theorem mem_of_isMixOfDateAndString (d : Descriptor) (h : isMixOfDateAndString d = true) :
    TypeTag.date ∈ possibleTypes d ∧ TypeTag.string ∈ possibleTypes d := by
  unfold isMixOfDateAndString at h
  cases hgd : alGet d.entries .date <;> rw [hgd] at h <;>
    cases hgs : alGet d.entries .string <;> rw [hgs] at h <;> simp at h
  obtain ⟨hpd, hps⟩ := h
  exact ⟨(mem_possibleTypes d .date).mpr ⟨_, hgd, hpd⟩,
    (mem_possibleTypes d .string).mpr ⟨_, hgs, hps⟩⟩

/-- C3: `resolveWinnerType` returns (`null`, no conflict) with no positive tag;
(the tag, no conflict) with exactly one; (`float`, no conflict) when the two
positive tags are exactly `int` and `float`; (`date` when all observed strings were
empty, else `string`, no conflict) when they are exactly `date` and `string`; and
(`null`, conflict) for every other combination of two or more positive tags. -/
theorem c3_resolveWinnerType_cases (d : Descriptor) :
    (possibleTypes d = [] → resolveWinnerType d = (.null, false)) ∧
    (∀ t, possibleTypes d = [t] → resolveWinnerType d = (t, false)) ∧
    (∀ a b, possibleTypes d = [a, b] →
      (a = TypeTag.int ∧ b = TypeTag.float) ∨ (a = TypeTag.float ∧ b = TypeTag.int) →
      resolveWinnerType d = (.float, false)) ∧
    (∀ a b, possibleTypes d = [a, b] →
      (a = TypeTag.date ∧ b = TypeTag.string) ∨ (a = TypeTag.string ∧ b = TypeTag.date) →
      resolveWinnerType d =
        ((if hasOnlyEmptyStrings d then TypeTag.date else TypeTag.string), false)) ∧
    (2 ≤ (possibleTypes d).length →
      ¬(TypeTag.int ∈ possibleTypes d ∧ TypeTag.float ∈ possibleTypes d ∧
          (possibleTypes d).length = 2) →
      ¬(TypeTag.date ∈ possibleTypes d ∧ TypeTag.string ∈ possibleTypes d ∧
          (possibleTypes d).length = 2) →
      resolveWinnerType d = (.null, true)) := by
  refine ⟨?_, ?_, ?_, ?_, ?_⟩
  · intro h
    simp [resolveWinnerType, h]
  · intro t h
    simp [resolveWinnerType, h]
  · intro a b h hpair
    have hm : isMixedNumber d = true := by
      rcases hpair with ⟨ha, hb⟩ | ⟨ha, hb⟩ <;> subst ha <;> subst hb <;>
        exact isMixedNumber_of_mem d (by simp [h]) (by simp [h])
    simp [resolveWinnerType, h, hm]
  · intro a b h hpair
    have hms : isMixOfDateAndString d = true := by
      rcases hpair with ⟨ha, hb⟩ | ⟨ha, hb⟩ <;> subst ha <;> subst hb <;>
        exact isMixOfDateAndString_of_mem d (by simp [h]) (by simp [h])
    have hmn : isMixedNumber d = false := by
      cases hmx : isMixedNumber d
      · rfl
      · obtain ⟨hi, hf⟩ := mem_of_isMixedNumber d hmx
        rw [h] at hi
        rcases hpair with ⟨ha, hb⟩ | ⟨ha, hb⟩ <;> subst ha <;> subst hb <;> simp at hi
    simp [resolveWinnerType, h, hms, hmn]
  · intro hlen hnif hnds
    have h1 : ((possibleTypes d).length == 1) = false := by
      simp only [beq_eq_false_iff_ne, ne_eq]
      omega
    have h2 : ((possibleTypes d).length == 2 && isMixedNumber d) = false := by
      rw [Bool.and_eq_false_iff]
      by_cases hl : (possibleTypes d).length = 2
      · right
        cases hmx : isMixedNumber d
        · rfl
        · obtain ⟨hi, hf⟩ := mem_of_isMixedNumber d hmx
          exact absurd ⟨hi, hf, hl⟩ hnif
      · left
        simpa using hl
    have h3 : ((possibleTypes d).length == 2 && isMixOfDateAndString d) = false := by
      rw [Bool.and_eq_false_iff]
      by_cases hl : (possibleTypes d).length = 2
      · right
        cases hmx : isMixOfDateAndString d
        · rfl
        · obtain ⟨hd, hs⟩ := mem_of_isMixOfDateAndString d hmx
          exact absurd ⟨hd, hs, hl⟩ hnds
      · left
        simpa using hl
    simp only [resolveWinnerType, h1, h2, h3, Bool.false_eq_true, if_false]
    rw [if_pos]
    omega

/-- Witness for C3: a descriptor with positive `int` and `float` totals resolves to
`float` without conflict. -/
theorem c3_resolveWinnerType_cases_witness :
    resolveWinnerType
      (Descriptor.mk [(.int, { total := 1 }), (.float, { total := 1 })]) =
      (.float, false) :=
  (c3_resolveWinnerType_cases
    (Descriptor.mk [(.int, { total := 1 }), (.float, { total := 1 })])).2.2.1
    .int .float rfl (Or.inl ⟨rfl, rfl⟩)

/-! ## C7: the type classifier -/

/-- C7: `getType` is a total function (intrinsically, in this embedding — the source
raises in no branch and classifies unrecognized shapes as `null`).  Numbers classify
as `int` exactly when the value equals an integer in the signed 32-bit range (and as
`float` otherwise); an empty array and an empty plain object classify as `null`; a
non-empty array classifies as `listOfUnion` exactly when its field key contains
`"___NODE"`, and as `array` otherwise; `undefined` classifies as `null`. -/
theorem c7_getType_classification (key : String) (q : ℚ) (v : JValue) (xs : JItems) :
    (getType (.vnum q) key = .int ↔
      ∃ n : Int, (n : ℚ) = q ∧ -(2 ^ 31) ≤ n ∧ n ≤ 2 ^ 31 - 1) ∧
    (getType (.vnum q) key = .int ∨ getType (.vnum q) key = .float) ∧
    getType (.varr .nil) key = .null ∧
    (getType (.varr (.cons v xs)) key = .listOfUnion ↔
      "___NODE".toList <:+: key.toList) ∧
    (getType (.varr (.cons v xs)) key = .array ↔
      ¬ "___NODE".toList <:+: key.toList) ∧
    getType (.vobj .nil) key = .null ∧
    getType .vundef key = .null := by
  refine ⟨?_, ?_, rfl, ?_, ?_, rfl, rfl⟩
  · constructor
    · intro h
      have hb : is32BitInteger q = true := by
        by_cases hb : is32BitInteger q
        · exact hb
        · simp [getType, hb] at h
      simp only [is32BitInteger, Bool.and_eq_true, beq_iff_eq, decide_eq_true_eq] at hb
      obtain ⟨⟨hden, hlo⟩, hhi⟩ := hb
      exact ⟨q.num, (Rat.den_eq_one_iff q).mp hden, hlo, hhi⟩
    · rintro ⟨n, hn, hlo, hhi⟩
      have hden : q.den = 1 := by rw [← hn]; exact Rat.den_intCast n
      have hnum : q.num = n := by rw [← hn]; exact Rat.num_intCast n
      have hb : is32BitInteger q = true := by
        simp only [is32BitInteger, Bool.and_eq_true, beq_iff_eq, decide_eq_true_eq, hnum]
        exact ⟨⟨hden, hlo⟩, hhi⟩
      simp [getType, hb]
  · by_cases hb : is32BitInteger q <;> simp [getType, hb]
  · by_cases hi : jsIncludes key "___NODE"
    · simp only [getType, hi, if_true, true_iff]
      simpa [jsIncludes] using hi
    · simp only [getType, hi, if_false]
      constructor
      · intro h
        exact absurd h (by simp)
      · intro h
        exact absurd (by simpa [jsIncludes] using h) hi
  · by_cases hi : jsIncludes key "___NODE"
    · simp only [getType, hi, if_true]
      constructor
      · intro h
        exact absurd h (by simp)
      · intro h
        exact absurd (by simpa [jsIncludes] using hi) h
    · simp only [getType, hi, if_false, true_iff]
      constructor
      · intro _
        exact fun hinf => hi (by simpa [jsIncludes] using hinf)
      · intro _
        rfl

/-! ## C2: counters round-trip under add-then-delete

A `Ctr` addresses one counter in a descriptor tree: the `total` of a type tag, a
`nodes` count of the `listOfUnion` entry, or a counter deeper inside an `object`
property or the shared `array` item.  `readCtr` reads it, treating every absent
entry as 0 (the spec's "absence of a tag means zero observations"). -/

/-- Address of one counter in a descriptor tree. -/
inductive Ctr where
  | total (t : TypeTag)
  | node (id : String)
  | inProp (k : String) (c : Ctr)
  | inItem (c : Ctr)
deriving DecidableEq, Repr

/-- The descriptor entry a counter address inspects first. -/
def Ctr.headTag : Ctr → TypeTag
  | .total t => t
  | .node _ => .listOfUnion
  | .inProp _ _ => .object
  | .inItem _ => .array

/-- Read one counter out of a descriptor (0 for anything absent). -/
def readCtr (d : Descriptor) : Ctr → Int
  | .total t =>
    match alGet d.entries t with
    | some ti => ti.total
    | none => 0
  | .node id =>
    match alGet d.entries .listOfUnion with
    | some ti => (alGet ti.nodes id).getD 0
    | none => 0
  | .inProp k c =>
    match alGet d.entries .object with
    | some ti =>
      match alGet ti.props k with
      | some d2 => readCtr d2 c
      | none => 0
    | none => 0
  | .inItem c =>
    match alGet d.entries .array with
    | some ti =>
      match ti.item with
      | some d2 => readCtr d2 c
      | none => 0
    | none => 0

/-- Read a counter through an optional descriptor (an `item` slot). -/
def readICtr (item : Option Descriptor) (c : Ctr) : Int :=
  match item with
  | some d => readCtr d c
  | none => 0

/-- Read a counter through a `props` map. -/
def readPCtr (props : List (String × Descriptor)) (k : String) (c : Ctr) : Int :=
  readICtr (alGet props k) c

theorem Descriptor.mk_entries (d : Descriptor) : Descriptor.mk d.entries = d := by
  cases d
  rfl

theorem readCtr_total_base (d : Descriptor) (t : TypeTag) :
    readCtr d (.total t) = ((alGet d.entries t).getD {}).total := by
  cases h : alGet d.entries t <;> simp [readCtr, h]

theorem readCtr_node_base (d : Descriptor) (id : String) :
    readCtr d (.node id) =
      (alGet ((alGet d.entries .listOfUnion).getD {}).nodes id).getD 0 := by
  cases h : alGet d.entries .listOfUnion <;> simp [readCtr, h, alGet]

theorem readCtr_inProp_base (d : Descriptor) (k : String) (c : Ctr) :
    readCtr d (.inProp k c) = readPCtr ((alGet d.entries .object).getD {}).props k c := by
  cases h : alGet d.entries .object with
  | none => simp [readCtr, h, readPCtr, readICtr, alGet]
  | some ti =>
    cases h2 : alGet ti.props k <;> simp [readCtr, h, h2, readPCtr, readICtr]

theorem readCtr_inItem_base (d : Descriptor) (c : Ctr) :
    readCtr d (.inItem c) = readICtr ((alGet d.entries .array).getD {}).item c := by
  cases h : alGet d.entries .array with
  | none => simp [readCtr, h, readICtr]
  | some ti => cases h2 : ti.item <;> simp [readCtr, h, h2, readICtr]

theorem readCtr_set_other (d : Descriptor) (t : TypeTag) (ti : TypeInfo) (c : Ctr)
    (h : c.headTag ≠ t) :
    readCtr (.mk (alSet d.entries t ti)) c = readCtr d c := by
  cases c with
  | total t2 =>
    simp only [readCtr, Descriptor.entries]
    rw [alGet_alSet_ne _ _ _ _ (by simpa [Ctr.headTag] using h)]
  | node id =>
    simp only [readCtr, Descriptor.entries]
    rw [alGet_alSet_ne _ _ _ _ (by simpa [Ctr.headTag] using h)]
  | inProp k c2 =>
    simp only [readCtr, Descriptor.entries]
    rw [alGet_alSet_ne _ _ _ _ (by simpa [Ctr.headTag] using h)]
  | inItem c2 =>
    simp only [readCtr, Descriptor.entries]
    rw [alGet_alSet_ne _ _ _ _ (by simpa [Ctr.headTag] using h)]

theorem readCtr_set_total_self (d : Descriptor) (t : TypeTag) (ti : TypeInfo) :
    readCtr (.mk (alSet d.entries t ti)) (.total t) = ti.total := by
  simp [readCtr, Descriptor.entries, alGet_alSet_self]

theorem readCtr_set_node_self (d : Descriptor) (ti : TypeInfo) (id : String) :
    readCtr (.mk (alSet d.entries .listOfUnion ti)) (.node id) =
      (alGet ti.nodes id).getD 0 := by
  simp [readCtr, Descriptor.entries, alGet_alSet_self]

theorem readCtr_set_inProp_self (d : Descriptor) (ti : TypeInfo) (k : String) (c : Ctr) :
    readCtr (.mk (alSet d.entries .object ti)) (.inProp k c) = readPCtr ti.props k c := by
  simp only [readCtr, Descriptor.entries, alGet_alSet_self]
  cases h2 : alGet ti.props k <;> simp [h2, readPCtr, readICtr]

theorem readCtr_set_inItem_self (d : Descriptor) (ti : TypeInfo) (c : Ctr) :
    readCtr (.mk (alSet d.entries .array ti)) (.inItem c) = readICtr ti.item c := by
  simp only [readCtr, Descriptor.entries, alGet_alSet_self]
  cases h2 : ti.item <;> simp [h2, readICtr]

/-- A scalar-branch update (any branch that only rewrites the `total`, `first`,
`example` and `empty` slots of the entry at a non-container tag) shifts exactly the
addressed `total` by its delta and leaves every other counter unchanged. -/
theorem readCtr_scalar_step (d : Descriptor) (t : TypeTag) (ti : TypeInfo) (delta : Int)
    (ht1 : t ≠ .listOfUnion) (ht2 : t ≠ .object) (ht3 : t ≠ .array)
    (htot : ti.total = ((alGet d.entries t).getD {}).total + delta) (c : Ctr) :
    readCtr (.mk (alSet d.entries t ti)) c =
      readCtr d c + (if c = .total t then delta else 0) := by
  cases c with
  | total t2 =>
    by_cases h : t2 = t
    · subst h
      rw [readCtr_set_total_self, htot, readCtr_total_base]
      simp
    · rw [readCtr_set_other _ _ _ _ (by simpa [Ctr.headTag] using h)]
      simp [h]
  | node id =>
    rw [readCtr_set_other _ _ _ _ (by simpa [Ctr.headTag] using Ne.symm ht1)]
    simp
  | inProp k c2 =>
    rw [readCtr_set_other _ _ _ _ (by simpa [Ctr.headTag] using Ne.symm ht2)]
    simp
  | inItem c2 =>
    rw [readCtr_set_other _ _ _ _ (by simpa [Ctr.headTag] using Ne.symm ht3)]
    simp

theorem readCtr_nil (c : Ctr) : readCtr (.mk []) c = 0 := by
  cases c <;> simp [readCtr, Descriptor.entries, alGet]

theorem readCtr_getD (o : Option Descriptor) (c : Ctr) :
    readCtr (o.getD (.mk [])) c = readICtr o c := by
  cases o <;> simp [readICtr, readCtr_nil]

theorem readPCtr_set_self (props : List (String × Descriptor)) (k : String)
    (v : Descriptor) (c : Ctr) : readPCtr (alSet props k v) k c = readCtr v c := by
  simp [readPCtr, alGet_alSet_self, readICtr]

theorem readPCtr_set_ne (props : List (String × Descriptor)) (k k0 : String)
    (v : Descriptor) (c : Ctr) (h : k0 ≠ k) :
    readPCtr (alSet props k v) k0 c = readPCtr props k0 c := by
  simp [readPCtr, alGet_alSet_ne _ _ _ _ h]

/-- The per-id delta of the `listOfUnion` loop is `delta` times a count that depends
only on the id list, not on the current `nodes` map. -/
theorem updNodes_delta (xs : JItems) (id : String) :
    ∃ k : Int, ∀ (nodes : List (String × Int)) (delta : Int) (dirty : Bool),
      (alGet (updNodes xs nodes delta dirty).1 id).getD 0 =
        (alGet nodes id).getD 0 + delta * k := by
  cases xs with
  | nil => exact ⟨0, by simp [updNodes]⟩
  | cons x rest =>
    obtain ⟨k, hk⟩ := updNodes_delta rest id
    by_cases hx : jsKeyString x = id
    · refine ⟨k + 1, ?_⟩
      intro nodes delta dirty
      simp only [updNodes]
      rw [hk, hx, alGet_alSet_self]
      simp only [Option.getD_some]
      ring
    · refine ⟨k, ?_⟩
      intro nodes delta dirty
      simp only [updNodes]
      rw [hk, alGet_alSet_ne _ _ _ _ (fun h => hx h.symm)]

mutual
/-- Every call of the Descriptor Updater moves each counter by `opSign op` times a
quantity that depends only on the key, the value and the counter address — not on
the descriptor, the operation or the node id.  (This is the heart of the add/delete
round-trip: the add and the delete of the same record move every counter by
opposite amounts.) -/
theorem updVD_delta (key : String) (value : JValue) (c : Ctr) :
    ∃ k : Int, ∀ (nodeId : JValue) (op : Op) (d : Descriptor),
      readCtr (updateValueDescriptor nodeId key value op d).1 c =
        readCtr d c + opSign op * k := by
  cases value with
  | vundef => exact ⟨0, by intro nodeId op d; simp [updateValueDescriptor, getType]⟩
  | vnull => exact ⟨0, by intro nodeId op d; simp [updateValueDescriptor, getType]⟩
  | vbool b =>
    have hnull : (TypeTag.boolean = TypeTag.null) = False := by simp
    refine ⟨if c = .total .boolean then 1 else 0, ?_⟩
    intro nodeId op d
    simp only [updateValueDescriptor, getType, hnull, if_false]
    rw [readCtr_scalar_step d .boolean _ (opSign op) (by decide) (by decide) (by decide)
      (by cases op <;> simp)]
    by_cases hc : c = .total .boolean <;> simp [hc]
  | vnum q =>
    by_cases hb : is32BitInteger q
    · have hgt : getType (.vnum q) key = .int := by simp [getType, hb]
      have hnull : (TypeTag.int = TypeTag.null) = False := by simp
      refine ⟨if c = .total .int then 1 else 0, ?_⟩
      intro nodeId op d
      simp only [updateValueDescriptor, hgt, hnull, if_false]
      rw [readCtr_scalar_step d .int _ (opSign op) (by decide) (by decide) (by decide)
        (by cases op <;> simp)]
      by_cases hc : c = .total .int <;> simp [hc]
    · have hgt : getType (.vnum q) key = .float := by simp [getType, hb]
      have hnull : (TypeTag.float = TypeTag.null) = False := by simp
      refine ⟨if c = .total .float then 1 else 0, ?_⟩
      intro nodeId op d
      simp only [updateValueDescriptor, hgt, hnull, if_false]
      rw [readCtr_scalar_step d .float _ (opSign op) (by decide) (by decide) (by decide)
        (by cases op <;> simp)]
      by_cases hc : c = .total .float <;> simp [hc]
  | vstr s =>
    by_cases hd : looksLikeADate s
    · have hgt : getType (.vstr s) key = .date := by simp [getType, hd]
      have hnull : (TypeTag.date = TypeTag.null) = False := by simp
      have hds : (TypeTag.date = TypeTag.string) = False := by simp
      refine ⟨if c = .total .date then 1 else 0, ?_⟩
      intro nodeId op d
      simp only [updateValueDescriptor, hgt, hnull, hds, if_false]
      rw [readCtr_scalar_step d .date _ (opSign op) (by decide) (by decide) (by decide)
        (by cases op <;> simp)]
      by_cases hc : c = .total .date <;> simp [hc]
    · have hgt : getType (.vstr s) key = .string := by simp [getType, hd]
      have hnull : (TypeTag.string = TypeTag.null) = False := by simp
      have hself : (TypeTag.string = TypeTag.string) = True := by simp
      refine ⟨if c = .total .string then 1 else 0, ?_⟩
      intro nodeId op d
      simp only [updateValueDescriptor, hgt, hnull, hself, if_false, if_true]
      rw [readCtr_scalar_step d .string _ (opSign op) (by decide) (by decide) (by decide)
        (by cases op <;> by_cases hs : s = "" <;> simp [hs])]
      by_cases hc : c = .total .string <;> simp [hc]
  | varr xs =>
    cases xs with
    | nil => exact ⟨0, by intro nodeId op d; simp [updateValueDescriptor, getType]⟩
    | cons x0 xs0 =>
      by_cases hk : jsIncludes key "___NODE"
      · have hgt : getType (.varr (.cons x0 xs0)) key = .listOfUnion := by
          simp [getType, hk]
        have hnull : (TypeTag.listOfUnion = TypeTag.null) = False := by simp
        have hself : (TypeTag.listOfUnion = TypeTag.listOfUnion) = True := by simp
        cases c with
        | total t2 =>
          refine ⟨if t2 = .listOfUnion then 1 else 0, ?_⟩
          intro nodeId op d
          simp only [updateValueDescriptor, hgt, hnull, hself, if_false, if_true]
          by_cases ht : t2 = .listOfUnion
          · subst ht
            rw [readCtr_set_total_self, readCtr_total_base]
            cases op <;> simp [opSign]
          · rw [readCtr_set_other _ _ _ _ (by simpa [Ctr.headTag] using ht)]
            simp [ht]
        | node id =>
          obtain ⟨kn, hkn⟩ := updNodes_delta (.cons x0 xs0) id
          refine ⟨kn, ?_⟩
          intro nodeId op d
          simp only [updateValueDescriptor, hgt, hnull, hself, if_false, if_true]
          rw [readCtr_set_node_self, hkn, readCtr_node_base]
          cases op <;> simp [opSign]
        | inProp k2 c2 =>
          refine ⟨0, ?_⟩
          intro nodeId op d
          simp only [updateValueDescriptor, hgt, hnull, hself, if_false, if_true]
          rw [readCtr_set_other _ _ _ _ (by simp [Ctr.headTag])]
          simp
        | inItem c2 =>
          refine ⟨0, ?_⟩
          intro nodeId op d
          simp only [updateValueDescriptor, hgt, hnull, hself, if_false, if_true]
          rw [readCtr_set_other _ _ _ _ (by simp [Ctr.headTag])]
          simp
      · have hgt : getType (.varr (.cons x0 xs0)) key = .array := by simp [getType, hk]
        have hnull : (TypeTag.array = TypeTag.null) = False := by simp
        have hlu : (TypeTag.array = TypeTag.listOfUnion) = False := by simp
        cases c with
        | total t2 =>
          refine ⟨if t2 = .array then 1 else 0, ?_⟩
          intro nodeId op d
          simp only [updateValueDescriptor, hgt, hnull, hlu, if_false]
          by_cases ht : t2 = .array
          · subst ht
            rw [readCtr_set_total_self, readCtr_total_base]
            cases op <;> simp [opSign]
          · rw [readCtr_set_other _ _ _ _ (by simpa [Ctr.headTag] using ht)]
            simp [ht]
        | node id =>
          refine ⟨0, ?_⟩
          intro nodeId op d
          simp only [updateValueDescriptor, hgt, hnull, hlu, if_false]
          rw [readCtr_set_other _ _ _ _ (by simp [Ctr.headTag])]
          simp
        | inProp k2 c2 =>
          refine ⟨0, ?_⟩
          intro nodeId op d
          simp only [updateValueDescriptor, hgt, hnull, hlu, if_false]
          rw [readCtr_set_other _ _ _ _ (by simp [Ctr.headTag])]
          simp
        | inItem c2 =>
          obtain ⟨ki, hki⟩ := updItems_delta key (.cons x0 xs0) c2
          refine ⟨ki, ?_⟩
          intro nodeId op d
          simp only [updateValueDescriptor, hgt, hnull, hlu, if_false]
          rw [readCtr_set_inItem_self, hki, readCtr_inItem_base]
          cases op <;> simp [opSign]
  | vobj fs =>
    cases fs with
    | nil => exact ⟨0, by intro nodeId op d; simp [updateValueDescriptor, getType]⟩
    | cons k0v v0 fs0 =>
      have hnull : (TypeTag.object = TypeTag.null) = False := by simp
      cases c with
      | total t2 =>
        refine ⟨if t2 = .object then 1 else 0, ?_⟩
        intro nodeId op d
        simp only [updateValueDescriptor, getType, hnull, if_false]
        by_cases ht : t2 = .object
        · subst ht
          rw [readCtr_set_total_self, readCtr_total_base]
          cases op <;> simp [opSign]
        · rw [readCtr_set_other _ _ _ _ (by simpa [Ctr.headTag] using ht)]
          simp [ht]
      | node id =>
        refine ⟨0, ?_⟩
        intro nodeId op d
        simp only [updateValueDescriptor, getType, hnull, if_false]
        rw [readCtr_set_other _ _ _ _ (by simp [Ctr.headTag])]
        simp
      | inProp k2 c2 =>
        obtain ⟨kp, hkp⟩ := updProps_delta (.cons k0v v0 fs0) k2 c2
        refine ⟨kp, ?_⟩
        intro nodeId op d
        simp only [updateValueDescriptor, getType, hnull, if_false]
        rw [readCtr_set_inProp_self, hkp, readCtr_inProp_base]
        cases op <;> simp [opSign]
      | inItem c2 =>
        refine ⟨0, ?_⟩
        intro nodeId op d
        simp only [updateValueDescriptor, getType, hnull, if_false]
        rw [readCtr_set_other _ _ _ _ (by simp [Ctr.headTag])]
        simp

/-- The props-fold analogue of `updVD_delta`, read at one property key. -/
theorem updProps_delta (fs : JFields) (k0 : String) (c : Ctr) :
    ∃ k : Int, ∀ (nodeId : JValue) (op : Op) (props : List (String × Descriptor))
      (dirty : Bool),
      readPCtr (updProps nodeId op fs props dirty).1 k0 c =
        readPCtr props k0 c + opSign op * k := by
  cases fs with
  | nil => exact ⟨0, by intro _ _ _ _; simp [updProps]⟩
  | cons kf vf rest =>
    obtain ⟨kv, hkv⟩ := updVD_delta kf vf c
    obtain ⟨kr, hkr⟩ := updProps_delta rest k0 c
    refine ⟨(if k0 = kf then kv else 0) + kr, ?_⟩
    intro nodeId op props dirty
    simp only [updProps]
    rw [hkr]
    by_cases hx : k0 = kf
    · subst hx
      rw [readPCtr_set_self, hkv, readCtr_getD]
      simp only [readPCtr, if_true]
      ring
    · rw [readPCtr_set_ne _ _ _ _ _ hx]
      simp only [if_neg hx]
      ring

/-- The items-fold analogue of `updVD_delta`. -/
theorem updItems_delta (key : String) (xs : JItems) (c : Ctr) :
    ∃ k : Int, ∀ (nodeId : JValue) (op : Op) (item : Option Descriptor) (dirty : Bool),
      readICtr (updItems nodeId key op xs item dirty).1 c =
        readICtr item c + opSign op * k := by
  cases xs with
  | nil => exact ⟨0, by intro _ _ _ _; simp [updItems]⟩
  | cons x rest =>
    obtain ⟨kx, hkx⟩ := updVD_delta key x c
    obtain ⟨kr, hkr⟩ := updItems_delta key rest c
    refine ⟨kx + kr, ?_⟩
    intro nodeId op item dirty
    simp only [updItems]
    rw [hkr]
    simp only [readICtr]
    rw [hkx, readCtr_getD]
    simp only [readICtr]
    ring
end

/-- The fields-fold of `updateTypeMetadata` also moves each counter of each field's
descriptor by `opSign op` times an operation-independent quantity. -/
theorem updMeta_delta (node : JFields) (fields : List String) (field : String) (c : Ctr) :
    ∃ k : Int, ∀ (nodeId : JValue) (op : Op) (fieldMap : List (String × Descriptor))
      (changed : Bool),
      readPCtr (updMeta nodeId op node fields fieldMap changed).1 field c =
        readPCtr fieldMap field c + opSign op * k := by
  induction fields with
  | nil => exact ⟨0, by intro _ _ _ _; simp [updMeta]⟩
  | cons f rest ih =>
    obtain ⟨kv, hkv⟩ := updVD_delta f (jsGetF node f) c
    obtain ⟨kr, hkr⟩ := ih
    refine ⟨(if field = f then kv else 0) + kr, ?_⟩
    intro nodeId op fieldMap changed
    simp only [updMeta]
    rw [hkr]
    by_cases hx : field = f
    · subst hx
      rw [readPCtr_set_self, hkv, readCtr_getD]
      simp only [readPCtr, if_true]
      ring
    · rw [readPCtr_set_ne _ _ _ _ _ hx]
      simp only [if_neg hx]
      ring

/-- C2: for every Type Metadata `m` and record `n`, `deleteNode (addNode m n) n`
restores every counter of every field's descriptor — the `total` of every type tag
at every nesting depth, and every `nodes` count of every `listOfUnion` entry — to
its value before the add.  (The theorem holds unconditionally, so in particular
under the claim's assumption that no unmatched deletes occurred.) -/
theorem c2_add_delete_roundtrip (m : TypeMetadata) (n : JFields) (field : String)
    (c : Ctr) :
    readPCtr (deleteNode (addNode m n) n).fieldMap field c =
      readPCtr m.fieldMap field c := by
  cases hig : m.ignored with
  | true => simp [addNode, deleteNode, updateTypeMetadata, hig]
  | false =>
    obtain ⟨k, hk⟩ := updMeta_delta n (nodeFields n m.ignoredFields) field c
    simp only [addNode, deleteNode, updateTypeMetadata, hig, Bool.false_eq_true,
      if_false]
    rw [hk, hk]
    simp [opSign]

/-! ## C8: examples are set once and never overwritten

An `ExLoc` addresses one `example` slot in a descriptor tree; `readEx` reads it,
with `vundef` for anything absent or unset (exactly the JS property read). -/

/-- Address of one `example` slot in a descriptor tree. -/
inductive ExLoc where
  | tag (t : TypeTag)
  | inProp (k : String) (l : ExLoc)
  | inItem (l : ExLoc)
deriving DecidableEq, Repr

/-- The descriptor entry an example address inspects first. -/
def ExLoc.headTag : ExLoc → TypeTag
  | .tag t => t
  | .inProp _ _ => .object
  | .inItem _ => .array

/-- The type tag whose `example` slot the address finally reads. -/
def ExLoc.lastTag : ExLoc → TypeTag
  | .tag t => t
  | .inProp _ l => l.lastTag
  | .inItem l => l.lastTag

/-- Read one `example` slot out of a descriptor (`vundef` when absent or unset). -/
def readEx (d : Descriptor) : ExLoc → JValue
  | .tag t =>
    match alGet d.entries t with
    | some ti => ti.«example»
    | none => .vundef
  | .inProp k l =>
    match alGet d.entries .object with
    | some ti =>
      match alGet ti.props k with
      | some d2 => readEx d2 l
      | none => .vundef
    | none => .vundef
  | .inItem l =>
    match alGet d.entries .array with
    | some ti =>
      match ti.item with
      | some d2 => readEx d2 l
      | none => JValue.vundef
    | none => JValue.vundef

/-- Read an `example` slot through an optional descriptor. -/
def readIEx (item : Option Descriptor) (l : ExLoc) : JValue :=
  match item with
  | some d => readEx d l
  | none => JValue.vundef

/-- Read an `example` slot through a string-keyed descriptor map. -/
def readPEx (props : List (String × Descriptor)) (k : String) (l : ExLoc) : JValue :=
  readIEx (alGet props k) l

theorem readEx_nil (l : ExLoc) : readEx (.mk []) l = .vundef := by
  cases l <;> simp [readEx, Descriptor.entries, alGet]

theorem readEx_getD (o : Option Descriptor) (l : ExLoc) :
    readEx (o.getD (.mk [])) l = readIEx o l := by
  cases o <;> simp [readIEx, readEx_nil]

theorem readPEx_set_self (props : List (String × Descriptor)) (k : String)
    (v : Descriptor) (l : ExLoc) : readPEx (alSet props k v) k l = readEx v l := by
  simp [readPEx, alGet_alSet_self, readIEx]

theorem readPEx_set_ne (props : List (String × Descriptor)) (k k0 : String)
    (v : Descriptor) (l : ExLoc) (h : k0 ≠ k) :
    readPEx (alSet props k v) k0 l = readPEx props k0 l := by
  simp [readPEx, alGet_alSet_ne _ _ _ _ h]

theorem readEx_tag_base (d : Descriptor) (t : TypeTag) :
    readEx d (.tag t) = ((alGet d.entries t).getD {}).«example» := by
  cases h : alGet d.entries t <;> simp [readEx, h]

theorem readEx_inProp_base (d : Descriptor) (k : String) (l : ExLoc) :
    readEx d (.inProp k l) = readPEx ((alGet d.entries .object).getD {}).props k l := by
  cases h : alGet d.entries .object with
  | none => simp [readEx, h, readPEx, readIEx, alGet]
  | some ti => cases h2 : alGet ti.props k <;> simp [readEx, h, h2, readPEx, readIEx]

theorem readEx_inItem_base (d : Descriptor) (l : ExLoc) :
    readEx d (.inItem l) = readIEx ((alGet d.entries .array).getD {}).item l := by
  cases h : alGet d.entries .array with
  | none => simp [readEx, h, readIEx]
  | some ti => cases h2 : ti.item <;> simp [readEx, h, h2, readIEx]

theorem readEx_set_other (d : Descriptor) (t : TypeTag) (ti : TypeInfo) (l : ExLoc)
    (h : l.headTag ≠ t) :
    readEx (.mk (alSet d.entries t ti)) l = readEx d l := by
  cases l with
  | tag t2 =>
    simp only [readEx, Descriptor.entries]
    rw [alGet_alSet_ne _ _ _ _ (by simpa [ExLoc.headTag] using h)]
  | inProp k l2 =>
    simp only [readEx, Descriptor.entries]
    rw [alGet_alSet_ne _ _ _ _ (by simpa [ExLoc.headTag] using h)]
  | inItem l2 =>
    simp only [readEx, Descriptor.entries]
    rw [alGet_alSet_ne _ _ _ _ (by simpa [ExLoc.headTag] using h)]

theorem readEx_set_tag_self (d : Descriptor) (t : TypeTag) (ti : TypeInfo) :
    readEx (.mk (alSet d.entries t ti)) (.tag t) = ti.«example» := by
  simp [readEx, Descriptor.entries, alGet_alSet_self]

theorem readEx_set_inProp_self (d : Descriptor) (ti : TypeInfo) (k : String) (l : ExLoc) :
    readEx (.mk (alSet d.entries .object ti)) (.inProp k l) = readPEx ti.props k l := by
  simp only [readEx, Descriptor.entries, alGet_alSet_self]
  cases h2 : alGet ti.props k <;> simp [h2, readPEx, readIEx]

theorem readEx_set_inItem_self (d : Descriptor) (ti : TypeInfo) (l : ExLoc) :
    readEx (.mk (alSet d.entries .array ti)) (.inItem l) = readIEx ti.item l := by
  simp only [readEx, Descriptor.entries, alGet_alSet_self]
  cases h2 : ti.item <;> simp [h2, readIEx]

mutual
/-- Once an `example` slot holds a defined value, no update (add or delete, with any
value) changes it: the scalar branches write `example` only when it is still
`undefined` (source lines 197-204), and no other branch writes it at all. -/
theorem updVD_example_preserved (key : String) (value : JValue) (l : ExLoc)
    (nodeId : JValue) (op : Op) (d : Descriptor) (h : readEx d l ≠ .vundef) :
    readEx (updateValueDescriptor nodeId key value op d).1 l = readEx d l := by
  cases value with
  | vundef => simp [updateValueDescriptor, getType]
  | vnull => simp [updateValueDescriptor, getType]
  | vbool b =>
    have hnull : (TypeTag.boolean = TypeTag.null) = False := by simp
    simp only [updateValueDescriptor, getType, hnull, if_false]
    by_cases hl : l = .tag .boolean
    · subst hl
      rw [readEx_set_tag_self, readEx_tag_base]
      rw [readEx_tag_base] at h
      cases op <;> simp [h]
    · rw [readEx_set_other _ _ _ _ ?_]
      cases l with
      | tag t2 =>
          simp only [ExLoc.headTag]
          exact fun ht => hl (by rw [ht])
      | inProp k2 l2 => simp [ExLoc.headTag]
      | inItem l2 => simp [ExLoc.headTag]
  | vnum q =>
    by_cases hb : is32BitInteger q
    · have hgt : getType (.vnum q) key = .int := by simp [getType, hb]
      have hnull : (TypeTag.int = TypeTag.null) = False := by simp
      simp only [updateValueDescriptor, hgt, hnull, if_false]
      by_cases hl : l = .tag .int
      · subst hl
        rw [readEx_set_tag_self, readEx_tag_base]
        rw [readEx_tag_base] at h
        cases op <;> simp [h]
      · rw [readEx_set_other _ _ _ _ ?_]
        cases l with
        | tag t2 =>
            simp only [ExLoc.headTag]
            exact fun ht => hl (by rw [ht])
        | inProp k2 l2 => simp [ExLoc.headTag]
        | inItem l2 => simp [ExLoc.headTag]
    · have hgt : getType (.vnum q) key = .float := by simp [getType, hb]
      have hnull : (TypeTag.float = TypeTag.null) = False := by simp
      simp only [updateValueDescriptor, hgt, hnull, if_false]
      by_cases hl : l = .tag .float
      · subst hl
        rw [readEx_set_tag_self, readEx_tag_base]
        rw [readEx_tag_base] at h
        cases op <;> simp [h]
      · rw [readEx_set_other _ _ _ _ ?_]
        cases l with
        | tag t2 =>
            simp only [ExLoc.headTag]
            exact fun ht => hl (by rw [ht])
        | inProp k2 l2 => simp [ExLoc.headTag]
        | inItem l2 => simp [ExLoc.headTag]
  | vstr s =>
    by_cases hd : looksLikeADate s
    · have hgt : getType (.vstr s) key = .date := by simp [getType, hd]
      have hnull : (TypeTag.date = TypeTag.null) = False := by simp
      have hds : (TypeTag.date = TypeTag.string) = False := by simp
      simp only [updateValueDescriptor, hgt, hnull, hds, if_false]
      by_cases hl : l = .tag .date
      · subst hl
        rw [readEx_set_tag_self, readEx_tag_base]
        rw [readEx_tag_base] at h
        cases op <;> simp [h]
      · rw [readEx_set_other _ _ _ _ ?_]
        cases l with
        | tag t2 =>
            simp only [ExLoc.headTag]
            exact fun ht => hl (by rw [ht])
        | inProp k2 l2 => simp [ExLoc.headTag]
        | inItem l2 => simp [ExLoc.headTag]
    · have hgt : getType (.vstr s) key = .string := by simp [getType, hd]
      have hnull : (TypeTag.string = TypeTag.null) = False := by simp
      have hself : (TypeTag.string = TypeTag.string) = True := by simp
      simp only [updateValueDescriptor, hgt, hnull, hself, if_false, if_true]
      by_cases hl : l = .tag .string
      · subst hl
        rw [readEx_set_tag_self, readEx_tag_base]
        rw [readEx_tag_base] at h
        cases op <;> by_cases hs : s = "" <;> simp [hs, h]
      · rw [readEx_set_other _ _ _ _ ?_]
        cases l with
        | tag t2 =>
            simp only [ExLoc.headTag]
            exact fun ht => hl (by rw [ht])
        | inProp k2 l2 => simp [ExLoc.headTag]
        | inItem l2 => simp [ExLoc.headTag]
  | varr xs =>
    cases xs with
    | nil => simp [updateValueDescriptor, getType]
    | cons x0 xs0 =>
      by_cases hk : jsIncludes key "___NODE"
      · have hgt : getType (.varr (.cons x0 xs0)) key = .listOfUnion := by
          simp [getType, hk]
        have hnull : (TypeTag.listOfUnion = TypeTag.null) = False := by simp
        have hself : (TypeTag.listOfUnion = TypeTag.listOfUnion) = True := by simp
        simp only [updateValueDescriptor, hgt, hnull, hself, if_false, if_true]
        by_cases hl : l = .tag .listOfUnion
        · subst hl
          rw [readEx_set_tag_self, readEx_tag_base]
          cases op <;> simp
        · rw [readEx_set_other _ _ _ _ ?_]
          cases l with
          | tag t2 =>
            simp only [ExLoc.headTag]
            exact fun ht => hl (by rw [ht])
          | inProp k2 l2 => simp [ExLoc.headTag]
          | inItem l2 => simp [ExLoc.headTag]
      · have hgt : getType (.varr (.cons x0 xs0)) key = .array := by simp [getType, hk]
        have hnull : (TypeTag.array = TypeTag.null) = False := by simp
        have hlu : (TypeTag.array = TypeTag.listOfUnion) = False := by simp
        simp only [updateValueDescriptor, hgt, hnull, hlu, if_false]
        cases l with
        | tag t2 =>
          by_cases ht : t2 = .array
          · subst ht
            rw [readEx_set_tag_self, readEx_tag_base]
            cases op <;> simp
          · rw [readEx_set_other _ _ _ _ (by simpa [ExLoc.headTag] using ht)]
        | inProp k2 l2 =>
          rw [readEx_set_other _ _ _ _ (by simp [ExLoc.headTag])]
        | inItem l2 =>
          rw [readEx_set_inItem_self, readEx_inItem_base]
          rw [readEx_inItem_base] at h
          cases op with
          | add =>
            exact updItems_example_preserved key (.cons x0 xs0) l2 nodeId .add _ _ h
          | del =>
            exact updItems_example_preserved key (.cons x0 xs0) l2 nodeId .del _ _ h
  | vobj fs =>
    cases fs with
    | nil => simp [updateValueDescriptor, getType]
    | cons k0v v0 fs0 =>
      have hnull : (TypeTag.object = TypeTag.null) = False := by simp
      simp only [updateValueDescriptor, getType, hnull, if_false]
      cases l with
      | tag t2 =>
        by_cases ht : t2 = .object
        · subst ht
          rw [readEx_set_tag_self, readEx_tag_base]
          cases op <;> simp
        · rw [readEx_set_other _ _ _ _ (by simpa [ExLoc.headTag] using ht)]
      | inItem l2 =>
        rw [readEx_set_other _ _ _ _ (by simp [ExLoc.headTag])]
      | inProp k2 l2 =>
        rw [readEx_set_inProp_self, readEx_inProp_base]
        rw [readEx_inProp_base] at h
        cases op with
        | add =>
          exact updProps_example_preserved (.cons k0v v0 fs0) k2 l2 nodeId .add _ _ h
        | del =>
          exact updProps_example_preserved (.cons k0v v0 fs0) k2 l2 nodeId .del _ _ h

/-- The props-fold analogue of `updVD_example_preserved`. -/
theorem updProps_example_preserved (fs : JFields) (k0 : String) (l : ExLoc)
    (nodeId : JValue) (op : Op) (props : List (String × Descriptor)) (dirty : Bool)
    (h : readPEx props k0 l ≠ .vundef) :
    readPEx (updProps nodeId op fs props dirty).1 k0 l = readPEx props k0 l := by
  cases fs with
  | nil => simp [updProps]
  | cons kf vf rest =>
    simp only [updProps]
    by_cases hx : k0 = kf
    · subst hx
      have hstep :
          readEx (updateValueDescriptor nodeId k0 vf op
            ((alGet props k0).getD (.mk []))).1 l =
            readEx ((alGet props k0).getD (.mk [])) l :=
        updVD_example_preserved k0 vf l nodeId op _ (by rw [readEx_getD]; exact h)
      have hnew :
          readPEx (alSet props k0 (updateValueDescriptor nodeId k0 vf op
            ((alGet props k0).getD (.mk []))).1) k0 l = readPEx props k0 l := by
        rw [readPEx_set_self, hstep, readEx_getD]
        rfl
      rw [updProps_example_preserved rest k0 l nodeId op _ _ (by rw [hnew]; exact h)]
      exact hnew
    · have hnew :
          readPEx (alSet props kf (updateValueDescriptor nodeId kf vf op
            ((alGet props kf).getD (.mk []))).1) k0 l = readPEx props k0 l :=
        readPEx_set_ne _ _ _ _ _ hx
      rw [updProps_example_preserved rest k0 l nodeId op _ _ (by rw [hnew]; exact h)]
      exact hnew

/-- The items-fold analogue of `updVD_example_preserved`. -/
theorem updItems_example_preserved (key : String) (xs : JItems) (l : ExLoc)
    (nodeId : JValue) (op : Op) (item : Option Descriptor) (dirty : Bool)
    (h : readIEx item l ≠ .vundef) :
    readIEx (updItems nodeId key op xs item dirty).1 l = readIEx item l := by
  cases xs with
  | nil => simp [updItems]
  | cons x rest =>
    simp only [updItems]
    have hstep :
        readEx (updateValueDescriptor nodeId key x op (item.getD (.mk []))).1 l =
          readEx (item.getD (.mk [])) l :=
      updVD_example_preserved key x l nodeId op _ (by rw [readEx_getD]; exact h)
    have hnew :
        readIEx (some (updateValueDescriptor nodeId key x op (item.getD (.mk []))).1) l =
          readIEx item l := by
      simp only [readIEx]
      rw [hstep, readEx_getD]
      rfl
    rw [updItems_example_preserved key rest l nodeId op _ _ (by rw [hnew]; exact h)]
    exact hnew
end

/-- C8: once a scalar type-info's `example` has been set from the first value
observed at that position, no later `updateValueDescriptor` call — add or delete,
with any value — modifies it; in particular deletions do not roll examples back. -/
theorem c8_example_set_once (nodeId : JValue) (key : String) (value : JValue) (op : Op)
    (d : Descriptor) (l : ExLoc) (e : JValue)
    (_hscalar : l.lastTag = .int ∨ l.lastTag = .float ∨ l.lastTag = .date ∨
      l.lastTag = .string ∨ l.lastTag = .boolean)
    (hset : readEx d l = e) (hne : e ≠ .vundef) :
    readEx (updateValueDescriptor nodeId key value op d).1 l = e := by
  subst hset
  exact updVD_example_preserved key value l nodeId op d hne

/-- Witness for C8: an `int` example already set to 5 survives adding the value 7
under the same key. -/
theorem c8_example_set_once_witness :
    readEx (updateValueDescriptor (.vstr "2") "foo" (.vnum 7) .add
      (.mk [(.int, { total := 1, first := .vstr "1", «example» := .vnum 5 })])).1
      (.tag .int) = .vnum 5 :=
  c8_example_set_once (.vstr "2") "foo" (.vnum 7) .add
    (.mk [(.int, { total := 1, first := .vstr "1", «example» := .vnum 5 })])
    (.tag .int) (.vnum 5) (Or.inl rfl) rfl (by decide)

/-! ## C10: type-infos with non-positive totals are treated as absent -/

theorem alGet_mem {α β : Type} [DecidableEq α] (l : List (α × β)) (k : α) (v : β)
    (h : alGet l k = some v) : (k, v) ∈ l := by
  induction l with
  | nil => simp [alGet] at h
  | cons p r ih =>
    obtain ⟨a, b⟩ := p
    by_cases ha : a = k
    · subst ha
      simp only [alGet, if_true] at h
      simp [h.symm]
      simp at h
      simp [h]
    · simp only [alGet, ha, if_false] at h
      simp [ih h]

theorem mem_alSet {α β : Type} [DecidableEq α] (l : List (α × β)) (k : α) (v : β)
    (p : α × β) (h : p ∈ alSet l k v) : p = (k, v) ∨ p ∈ l := by
  induction l with
  | nil => simpa [alSet] using h
  | cons q r ih =>
    obtain ⟨a, b⟩ := q
    by_cases ha : a = k
    · subst ha
      simp only [alSet, if_true] at h
      rcases List.mem_cons.mp h with h1 | h1
      · exact Or.inl h1
      · exact Or.inr (List.mem_cons_of_mem _ h1)
    · simp only [alSet, ha, if_false] at h
      rcases List.mem_cons.mp h with h1 | h1
      · exact Or.inr (List.mem_cons.mpr (Or.inl h1))
      · rcases ih h1 with h2 | h2
        · exact Or.inl h2
        · exact Or.inr (List.mem_cons_of_mem _ h2)

theorem alGet_isSome_of_mem_keys {α β : Type} [DecidableEq α] (l : List (α × β)) (k : α)
    (h : k ∈ l.map Prod.fst) : ∃ v, alGet l k = some v := by
  induction l with
  | nil => simp at h
  | cons p r ih =>
    obtain ⟨a, b⟩ := p
    by_cases ha : a = k
    · exact ⟨b, by simp [alGet, ha]⟩
    · simp only [List.map_cons, List.mem_cons] at h
      rcases h with h1 | h1
      · exact absurd h1.symm ha
      · obtain ⟨v, hv⟩ := ih h1
        exact ⟨v, by simp [alGet, ha, hv]⟩

/-- Every type listed inside any group produced by `groupTypes` comes from the input
candidate list. -/
theorem groupTypes_mem (l : List TypeTag) (d : Descriptor) (g : String × List TypeTag)
    (hg : g ∈ groupTypes l d) (t : TypeTag) (ht : t ∈ g.2) : t ∈ l := by
  suffices h : ∀ (l2 : List TypeTag) (acc : List (String × List TypeTag)),
      (∀ g2 ∈ acc, ∀ t2 ∈ g2.2, t2 ∈ l) → (∀ t2 ∈ l2, t2 ∈ l) →
      ∀ g2 ∈ l2.foldl (fun acc t2 =>
          let f := ((alGet d.entries t2).getD {}).first
          let k := if jsTruthy f then jsKeyString f else ""
          match alGet acc k with
          | some gr => alSet acc k (gr ++ [t2])
          | none => acc ++ [(k, [t2])]) acc,
        ∀ t2 ∈ g2.2, t2 ∈ l by
    exact h l [] (by simp) (fun _ ht2 => ht2) g hg t ht
  intro l2
  induction l2 with
  | nil =>
    intro acc hacc _ g2 hg2 t2 ht2
    exact hacc g2 hg2 t2 ht2
  | cons x r ih =>
    intro acc hacc hl2 g2 hg2 t2 ht2
    refine ih _ ?_ (fun u hu => hl2 u (List.mem_cons_of_mem _ hu)) g2 hg2 t2 ht2
    intro g3 hg3 t3 ht3
    set f := ((alGet d.entries x).getD {}).first with hf
    set k := if jsTruthy f then jsKeyString f else "" with hk
    rcases hget : alGet acc k with hv | gr
    · simp only [hget] at hg3
      rcases List.mem_append.mp hg3 with h1 | h1
      · exact hacc g3 h1 t3 ht3
      · simp only [List.mem_singleton] at h1
        subst h1
        simp only [List.mem_singleton] at ht3
        subst ht3
        exact hl2 t3 (List.mem_cons_self _ _)
    · simp only [hget] at hg3
      rcases mem_alSet _ _ _ _ hg3 with h1 | h1
      · subst h1
        rcases List.mem_append.mp ht3 with h2 | h2
        · exact hacc (k, gr) (alGet_mem _ _ _ hget) t3 h2
        · simp only [List.mem_singleton] at h2
          subst h2
          exact hl2 t3 (List.mem_cons_self _ _)
      · exact hacc g3 h1 t3 ht3

/-- C10: a type-info whose `total` is not positive (including a negative total from
an unmatched delete) is treated exactly as if the type were absent: it is never a
candidate of `resolveWinnerType` (whose candidates are `possibleTypes`); the
alternatives listed by `prepareConflictExamples` are drawn from `possibleTypes`
only (ungrouped: exactly the positive tags in order; grouped: every listed type is
a positive tag); all-non-positive field maps make `isEmpty` true; and a
`listOfUnion` winner's example lists only ids with a strictly positive `nodes`
count. -/
theorem c10_nonpositive_totals_ignored (fuel : Nat) (d : Descriptor) (t : TypeTag)
    (ti : TypeInfo) (m : TypeMetadata) (hasReporter isArrayItem : Bool)
    (path : String) :
    (alGet d.entries t = some ti → ti.total ≤ 0 → t ∉ possibleTypes d) ∧
    ((prepareConflictExamples (fuel + 1) d false).map ConflictExample.type =
      (possibleTypes d).map typeNameMapper) ∧
    (∀ g ∈ groupTypes (possibleTypes d) d, ∀ t2 ∈ g.2, t2 ∈ possibleTypes d) ∧
    ((∀ f d2, alGet m.fieldMap f = some d2 →
        ∀ t2 ti2, alGet d2.entries t2 = some ti2 → ti2.total ≤ 0) →
      isEmpty m = true) ∧
    (∀ ti3, alGet d.entries .listOfUnion = some ti3 →
      resolveWinnerType d = (.listOfUnion, false) →
      ∃ ids : List String,
        (buildExampleValue (fuel + 1) d hasReporter isArrayItem path).1 =
          .varr (jitemsOf (ids.map JValue.vstr)) ∧
        ∀ id ∈ ids, (alGet ti3.nodes id).getD 0 > 0) := by
  refine ⟨?_, ?_, ?_, ?_, ?_⟩
  · intro hget hle hmem
    obtain ⟨ti2, hget2, hpos⟩ := (mem_possibleTypes d t).mp hmem
    rw [hget] at hget2
    injection hget2 with hh
    subst hh
    omega
  · simp only [prepareConflictExamples, Bool.false_eq_true, if_false, List.map_map]
    rfl
  · intro g hg t2 ht2
    exact groupTypes_mem _ d g (by simpa [groupTypes] using hg) t2 ht2
  · intro hall
    simp only [isEmpty, List.all_eq_true]
    intro f hf
    obtain ⟨d2, hd2⟩ := alGet_isSome_of_mem_keys _ _ hf
    rw [hd2]
    simp only [Option.getD_some]
    have : possibleTypes d2 = [] := by
      rw [List.eq_nil_iff_forall_not_mem]
      intro t2 hmem
      obtain ⟨ti2, hget2, hpos⟩ := (mem_possibleTypes d2 t2).mp hmem
      have := hall f d2 hd2 t2 ti2 hget2
      omega
    simp [this]
  · intro ti3 hti3 hr
    refine ⟨(ti3.nodes.map Prod.fst).filter (fun k => (alGet ti3.nodes k).getD 0 > 0),
      ?_, ?_⟩
    · simp only [buildExampleValue, hr, hti3]
      simp
    · intro id hid
      rw [List.mem_filter] at hid
      simpa using hid.2

end InferenceMetadata
